import Mathlib

/-!
Verification of the `fin-ocr-cli` accuracy-measurement pipeline.

Shallow embedding of the two core components of the repository:

* `Queue` (src/queue.ts): a bounded-concurrency runner executing a lazily
  produced stream of asynchronous jobs, at most `max` in flight, refilling
  freed slots oldest-first.
* `CheckComparer` (src/check.ts): the accuracy classification engine which
  compares a recognition outcome against ground truth and files check ids
  into review buckets.

JavaScript's single-threaded cooperative concurrency is modelled by an
explicit state machine: a promise is identified by its production index, its
completion instant is given by an environment function `done`, and `await`
advances the current logical time to the awaited promise's completion time.
A promise rejection is an `Except.error` observed when the promise is
awaited.  Machine-level JS value falsiness is modelled by the `JSVal` type.
-/

namespace FinOcrCli

/-! ## JavaScript value model (for `Queue` job results) -/

/-- The JavaScript values a job promise can resolve to, sufficient to decide
truthiness.  `jsUndefined` is the producer's "no more work" sentinel. -/
inductive JSVal where
  | jsUndefined
  | jsNull
  | jsBool (b : Bool)
  | jsNum (n : Int)
  | jsNaN
  | jsStr (s : String)
  | jsObj
deriving DecidableEq, Repr

/-- JavaScript falsiness: `undefined`, `null`, `false`, `0`, `NaN` and `""`
are falsy; everything else is truthy. -/
def JSVal.falsy : JSVal → Bool
  | .jsUndefined => true
  | .jsNull => true
  | .jsBool b => !b
  | .jsNum n => n == 0
  | .jsNaN => true
  | .jsStr s => s == ""
  | .jsObj => false

/-! ## Queue (src/queue.ts) -/

/-- One micro-operation on the `promises` array: a push (appending a freshly
invoked producer call) or a shift (removing the oldest entry to await it).
`before`/`after` record the array length around the operation. -/
structure QueueOp where
  push : Bool
  before : Nat
  after : Nat
deriving DecidableEq, Repr

/-- The runner's observable state.  `pending` holds the production indices of
the promises currently in the `promises` array (oldest first); `produced`
counts producer invocations so far; `time` is the current logical instant;
`invokes` logs each producer invocation with the instant it happened;
`awaited` logs the production indices awaited, in order; `ops` logs every
push/shift micro-operation on the array. -/
structure QueueState where
  pending : List Nat
  produced : Nat
  time : Nat
  invokes : List (Nat × Nat)
  awaited : List Nat
  ops : List QueueOp
deriving DecidableEq, Repr

/-- A `Queue` as constructed in src/queue.ts:27-30: `prod k` is the result the
`k`-th invocation of the iterator (the job producer) eventually resolves to
(or rejects with, as `Except.error`); `done k` is the instant that promise
completes; `max` is the concurrency limit. -/
structure Queue where
  prod : Nat → Except String JSVal
  done : Nat → Nat
  max : Nat

/-- Invoke the producer once and append the new promise to the array
(`this.promises.push(this.iter())`, src/queue.ts:41). -/
def pushJob (st : QueueState) : QueueState :=
  { st with
    pending := st.pending ++ [st.produced]
    produced := st.produced + 1
    invokes := st.invokes ++ [(st.produced, st.time)]
    ops := st.ops ++ [⟨true, st.pending.length, st.pending.length + 1⟩] }

/-- The `while (this.promises.length < this.max)` fill loop
(src/queue.ts:40-42), run with enough fuel: each iteration pushes exactly one
promise, so `q.max` iterations always suffice. -/
def fillAux (q : Queue) : Nat → QueueState → QueueState
  | 0, st => st
  | n + 1, st =>
    if st.pending.length < q.max then fillAux q n (pushJob st) else st

def fill (q : Queue) (st : QueueState) : QueueState :=
  fillAux q q.max st

/-- `Queue.getNext` (src/queue.ts:39-45): fill the array to `max`, shift the
oldest promise and await it.  Awaiting advances the logical time to the
promise's completion instant.  Shifting an empty array yields `undefined`
(only possible when `max = 0`). -/
def getNext (q : Queue) (st : QueueState) : QueueState × Except String JSVal :=
  let st1 := fill q st
  match st1.pending with
  | [] => (st1, .ok .jsUndefined)
  | p :: rest =>
    ({ st1 with
        pending := rest
        time := Nat.max st1.time (q.done p)
        awaited := st1.awaited ++ [p]
        ops := st1.ops ++ [⟨false, rest.length + 1, rest.length⟩] },
     q.prod p)

/-- Outcome of `Queue.run`: final state, the rejection that propagated out of
`run` (if any), and whether the fuel ran out before the loop terminated. -/
structure RunResult where
  state : QueueState
  err : Option String
  fuelOut : Bool
deriving Repr

/-- The `for(;;)` loop of `Queue.run` (src/queue.ts:32-37): repeatedly await
the next result; a rejection propagates out; a falsy result breaks the
loop. -/
def runAux (q : Queue) : Nat → QueueState → RunResult
  | 0, st => ⟨st, none, true⟩
  | fuel + 1, st =>
    match getNext q st with
    | (st1, .error e) => ⟨st1, some e, false⟩
    | (st1, .ok v) => if v.falsy then ⟨st1, none, false⟩ else runAux q fuel st1

def initQueueState : QueueState := ⟨[], 0, 0, [], [], []⟩

/-- `Queue.run` (src/queue.ts:32-37) from the initial state. -/
def Queue.run (q : Queue) (fuel : Nat) : RunResult :=
  runAux q fuel initQueueState

/-- A producer call result that keeps the `run` loop going: a promise that
resolves (does not reject) to a truthy value. -/
def okTruthy : Except String JSVal → Bool
  | .ok v => !v.falsy
  | .error _ => false

/-! ## CheckComparer (src/check.ts) -/

/-- Errors raised while resolving the expected triple for a comparison. -/
inductive CompareError where
  | missingField (name : String)
  | malformedMicr (s : String)
deriving DecidableEq, Repr

/-- The `X9` interface (src/check.ts:14-19): the raw ground-truth record.
Fields are optional because the record is parsed from JSON and may be
malformed (missing expected fields). -/
structure X9 where
  payorBankRoutingNumber : Option String
  payorBankCheckDigit : Option String
  onUs : Option String
  auxiliaryOnUs : Option String
deriving DecidableEq, Repr

/-- `ocr.CheckInfo`: the expected (routing, account, check-number) triple.
The check number is optional (omitted when `auxiliaryOnUs` is absent). -/
structure CheckInfo where
  routingNumber : String
  accountNumber : String
  checkNumber : Option String
deriving DecidableEq, Repr

/-- One engine's recognition result (`tr.result` in src/check.ts:536). -/
structure TranslatorResult where
  routingNumber : String
  accountNumber : String
  checkNumber : Option String
deriving DecidableEq, Repr

def replaceFirstAux (a b : Char) : List Char → List Char
  | [] => []
  | c :: cs => if c = a then b :: cs else c :: replaceFirstAux a b cs

/-- JavaScript `String.prototype.replace` with a one-character string
pattern: replaces only the first occurrence (used at src/check.ts:393,
`x9.onUs.replace('/', 'U')`). -/
def replaceFirst (s : String) (a b : Char) : String :=
  ⟨replaceFirstAux a b s.data⟩

/-- Modelled from the spec: `ocr.CheckUtil.x9ToCheckInfo` (called at
src/check.ts:530) lives in the external `@discoverfinancial/fin-ocr-sdk`
package, not under this repository's `src/`.  Per spec §4.2 step 1: routing
= `payorBankRoutingNumber + payorBankCheckDigit`; account = `onUs` with its
`/` delimiter replaced by the on-us symbol `U` (first occurrence, mirroring
the sibling in-repo derivation at src/check.ts:393, which coincides with the
spec's "trailing delimiter replaced" whenever the delimiter is the final
character); the check-number field is taken from `auxiliaryOnUs` when
present, else omitted.  A missing expected field is a fatal error for the
comparison (spec §4.2 failure semantics). -/
def x9ToCheckInfo (x9 : X9) : Except CompareError CheckInfo :=
  match x9.payorBankRoutingNumber, x9.payorBankCheckDigit, x9.onUs with
  | none, _, _ => .error (.missingField "payorBankRoutingNumber")
  | _, none, _ => .error (.missingField "payorBankCheckDigit")
  | _, _, none => .error (.missingField "onUs")
  | some pbr, some dig, some onUs =>
    .ok ⟨pbr ++ dig, replaceFirst onUs '/' 'U', x9.auxiliaryOnUs⟩

/-- Split a character list at the first occurrence of `c`, returning the
part before and the part after; `none` when `c` does not occur. -/
def splitOnce (c : Char) : List Char → Option (List Char × List Char)
  | [] => none
  | x :: xs =>
    if x = c then some ([], xs)
    else (splitOnce c xs).map (fun p => (x :: p.1, p.2))

/-- Modelled from the spec: `ocr.CheckUtil.micrToCheckInfo` (called at
src/check.ts:528) lives in the external SDK, not under `src/`.  Per the
decoding rule of spec §4.2: scanning left to right, the substring framed by
the two `T` symbols is the routing number, the substring between the second
`T` and the `U` symbol is the account number, and any content following that
`U` is the check number; an override string missing these symbols is
malformed and raises an error. -/
def micrToCheckInfo (s : String) : Except CompareError CheckInfo :=
  match splitOnce 'T' s.data with
  | none => .error (.malformedMicr s)
  | some (_, r1) =>
    match splitOnce 'T' r1 with
    | none => .error (.malformedMicr s)
    | some (routing, r2) =>
      match splitOnce 'U' r2 with
      | none => .error (.malformedMicr s)
      | some (account, check) => .ok ⟨⟨routing⟩, ⟨account⟩, some ⟨check⟩⟩

/-- `CheckEvalData` (src/check.ts:24-28): the evaluation ledger document. -/
structure CheckEvalData where
  mismatchesByReason : List (String × List Nat)
  correctX9 : List (Nat × String)
deriving DecidableEq, Repr

/-- The immutable part of a `CheckComparer` (src/check.ts:505-506):
the correction overrides and the already-evaluated id list. -/
structure CheckComparer where
  correctX9 : List (Nat × String)
  alreadyEvaluated : List Nat
deriving DecidableEq, Repr

/-- The `CheckComparer` constructor (src/check.ts:512-522): flattens the id
lists of `mismatchesByReason` into `alreadyEvaluated`. -/
def mkCheckComparer (cd : CheckEvalData) : CheckComparer :=
  ⟨cd.correctX9, (cd.mismatchesByReason.map Prod.snd).flatten⟩

/-- Ledger lookup `id in this.correctX9` / `this.correctX9[idStr]`
(src/check.ts:527-528 and 551). -/
def CheckComparer.override (cc : CheckComparer) (id : Nat) : Option String :=
  (cc.correctX9.find? (fun p => p.1 == id)).map Prod.snd

/-- The mutable accumulation state of a `CheckComparer`
(src/check.ts:502-510). -/
structure CompareState where
  «matches» : List Nat
  mismatches : List Nat
  wrongInX9 : List Nat
  toEvaluate : List Nat
  toReevaluate : List Nat
  comparisonCount : Nat
deriving DecidableEq, Repr

def initCompareState : CompareState := ⟨[], [], [], [], [], 0⟩

/-- The per-engine field comparison (src/check.ts:537-540): collect the
names of fields whose recognized value differs from the expected value
(exact string/undefined equality, no normalization). -/
def mismatchedFields (ci : CheckInfo) (r : TranslatorResult) : List String :=
  (if ci.routingNumber ≠ r.routingNumber then ["routingNumber"] else []) ++
  (if ci.accountNumber ≠ r.accountNumber then ["accountNumber"] else []) ++
  (if ci.checkNumber ≠ r.checkNumber then ["checkNumber"] else [])

/-- The engine loop of `compare` (src/check.ts:533-547): walk the engines in
order, stop at the first whose mismatched-field list is empty.  Returns the
match flag together with the number of engines examined. -/
def matchLoop (ci : CheckInfo) : List TranslatorResult → Bool × Nat
  | [] => (false, 0)
  | r :: rest =>
    if mismatchedFields ci r = [] then (true, 1)
    else
      let p := matchLoop ci rest
      (p.1, p.2 + 1)

/-- Expected-triple resolution (src/check.ts:526-531): decode the override
when one is present in the ledger, otherwise derive from the raw record. -/
def resolveCheckInfo (cc : CheckComparer) (id : Nat) (x9 : X9) :
    Except CompareError CheckInfo :=
  match cc.override id with
  | some s => micrToCheckInfo s
  | none => x9ToCheckInfo x9

/-- The bucket decision chain of `compare` (src/check.ts:551-561):
`wrong = id in this.correctX9`, `evaluated = alreadyEvaluated.indexOf(id) >= 0`,
then the `if / else if / else if` precedence: wrong ground truth first, then
needs-evaluation (mismatched and not yet evaluated), then needs-reevaluation
(matched and already evaluated), else no bucket. -/
def applyBuckets (cc : CheckComparer) (st : CompareState) (id : Nat)
    (mtch : Bool) : CompareState :=
  if (cc.override id).isSome then
    { st with wrongInX9 := st.wrongInX9 ++ [id] }
  else if !mtch && !(cc.alreadyEvaluated.contains id) then
    { st with toEvaluate := st.toEvaluate ++ [id] }
  else if mtch && cc.alreadyEvaluated.contains id then
    { st with toReevaluate := st.toReevaluate ++ [id] }
  else st

/-- The match/mismatch recording of `compare` (src/check.ts:562-563). -/
def recordOutcome (st : CompareState) (id : Nat) (mtch : Bool) : CompareState :=
  if mtch then { st with «matches» := st.«matches» ++ [id] }
  else { st with mismatches := st.mismatches ++ [id] }

/-- `CheckComparer.compare` (src/check.ts:524-567): resolve the expected
triple, run the engine loop, file the id into at most one review bucket by
the chain of lines 551-561, record the id into `«matches»` or `mismatches`
(lines 562-563), and bump the comparison count (line 565). -/
def compare (cc : CheckComparer) (st : CompareState) (id : Nat) (x9 : X9)
    (trs : List TranslatorResult) : Except CompareError (CompareState × Bool) :=
  match resolveCheckInfo cc id x9 with
  | .error e => .error e
  | .ok ci =>
    let mtch := (matchLoop ci trs).1
    let st2 := recordOutcome (applyBuckets cc st id mtch) id mtch
    .ok ({ st2 with comparisonCount := st2.comparisonCount + 1 }, mtch)

/-- A batch of `compare` calls in completion order, stopping at the first
comparison that raises: the state returned is the one from just before the
failing call, paired with the error. -/
def runCompares (cc : CheckComparer) (st : CompareState) :
    List (Nat × X9 × List TranslatorResult) → CompareState × Option CompareError
  | [] => (st, none)
  | (id, x9, trs) :: rest =>
    match compare cc st id x9 trs with
    | .error e => (st, some e)
    | .ok (st1, _) => runCompares cc st1 rest

/-- The match outcome a successful `compare` call reports for an input. -/
def matchedOf (cc : CheckComparer) (p : Nat × X9 × List TranslatorResult) : Bool :=
  match resolveCheckInfo cc p.1 p.2.1 with
  | .ok ci => (matchLoop ci p.2.2).1
  | .error _ => false

/-! ## Concrete fixtures (used by witnesses and counterexamples) -/

/-- A comparer with an empty evaluation ledger. -/
def cc0 : CheckComparer := ⟨[], []⟩

/-- A comparer whose ledger holds a correction override for check 5. -/
def ccOverride : CheckComparer := ⟨[(5, "T1T2U3")], []⟩

/-- A comparer whose ledger marks checks 4 and 9 as already evaluated. -/
def ccEval : CheckComparer := mkCheckComparer ⟨[("bad contour", [4, 9])], []⟩

/-- A comparer whose ledger holds a malformed override for check 9. -/
def ccBadOverride : CheckComparer := ⟨[(9, "xyz")], []⟩

/-- The raw ground-truth record of the spec §8 example. -/
def goodX9 : X9 := ⟨some "1234567", some "8", some "1234567890/", some "1234567"⟩

/-- A malformed raw ground-truth record (missing `onUs`). -/
def badX9 : X9 := ⟨some "1234567", some "8", none, some "1234567"⟩

/-- The expected triple derived from `goodX9`. -/
def expCi : CheckInfo := ⟨"12345678", "1234567890U", some "1234567"⟩

/-- An engine result equal to the expected triple of `goodX9`. -/
def trGood : TranslatorResult := ⟨"12345678", "1234567890U", some "1234567"⟩

/-- An engine result disagreeing with the expected triple of `goodX9`. -/
def trBad : TranslatorResult := ⟨"0", "1", some "2"⟩

/-- A producer whose first call yields the sentinel and whose second call
rejects: the rejected promise is produced (the queue fills to `max` before
the sentinel is awaited) but abandoned. -/
def qAbandon : Queue :=
  ⟨fun k => if k = 0 then .ok .jsUndefined else .error "boom", fun _ => 0, 2⟩

/-- A producer yielding three (truthy) jobs and then the sentinel. -/
def prodThree : Nat → Except String JSVal :=
  fun k => .ok (if k < 3 then .jsNum 1 else .jsUndefined)

/-- Completion times where job 2 (index 1) completes before job 1 (index 0). -/
def doneW : Nat → Nat := fun k => if k = 0 then 5 else 3

/-- A producer whose second job rejects (first is truthy). -/
def prodFail : Nat → Except String JSVal :=
  fun k => if k = 0 then .ok (.jsNum 7) else if k = 1 then .error "boom" else .ok .jsUndefined

/-- A producer whose second job resolves to the empty string: a falsy value
that is not the `undefined` sentinel. -/
def prodFalsy : Nat → Except String JSVal :=
  fun k => if k = 0 then .ok (.jsNum 7) else .ok (.jsStr "")

/-! ## Helper lemmas: CheckComparer -/

theorem applyBuckets_matches (cc : CheckComparer) (st : CompareState) (id : Nat)
    (m : Bool) : (applyBuckets cc st id m).«matches» = st.«matches» := by
  unfold applyBuckets; split_ifs <;> rfl

theorem applyBuckets_mismatches (cc : CheckComparer) (st : CompareState) (id : Nat)
    (m : Bool) : (applyBuckets cc st id m).mismatches = st.mismatches := by
  unfold applyBuckets; split_ifs <;> rfl

theorem applyBuckets_count (cc : CheckComparer) (st : CompareState) (id : Nat)
    (m : Bool) : (applyBuckets cc st id m).comparisonCount = st.comparisonCount := by
  unfold applyBuckets; split_ifs <;> rfl

theorem recordOutcome_wrongInX9 (st : CompareState) (id : Nat) (m : Bool) :
    (recordOutcome st id m).wrongInX9 = st.wrongInX9 := by
  unfold recordOutcome; split_ifs <;> rfl

theorem recordOutcome_toEvaluate (st : CompareState) (id : Nat) (m : Bool) :
    (recordOutcome st id m).toEvaluate = st.toEvaluate := by
  unfold recordOutcome; split_ifs <;> rfl

theorem recordOutcome_toReevaluate (st : CompareState) (id : Nat) (m : Bool) :
    (recordOutcome st id m).toReevaluate = st.toReevaluate := by
  unfold recordOutcome; split_ifs <;> rfl

theorem recordOutcome_count (st : CompareState) (id : Nat) (m : Bool) :
    (recordOutcome st id m).comparisonCount = st.comparisonCount := by
  unfold recordOutcome; split_ifs <;> rfl

theorem compare_ok_elim {cc : CheckComparer} {st : CompareState} {id : Nat}
    {x9 : X9} {trs : List TranslatorResult} {st' : CompareState} {m : Bool}
    (h : compare cc st id x9 trs = .ok (st', m)) :
    ∃ ci, resolveCheckInfo cc id x9 = .ok ci ∧ m = (matchLoop ci trs).1 ∧
      st' = { recordOutcome (applyBuckets cc st id m) id m with
              comparisonCount :=
                (recordOutcome (applyBuckets cc st id m) id m).comparisonCount + 1 } := by
  cases hres : resolveCheckInfo cc id x9 with
  | error e => simp [compare, hres] at h
  | ok ci =>
    simp only [compare, hres, Except.ok.injEq, Prod.mk.injEq] at h
    exact ⟨ci, rfl, h.2.symm, by rw [← h.1, h.2]⟩

theorem compare_ok_buckets {cc : CheckComparer} {st : CompareState} {id : Nat}
    {x9 : X9} {trs : List TranslatorResult} {st' : CompareState} {m : Bool}
    (h : compare cc st id x9 trs = .ok (st', m)) :
    st'.wrongInX9 = (applyBuckets cc st id m).wrongInX9 ∧
    st'.toEvaluate = (applyBuckets cc st id m).toEvaluate ∧
    st'.toReevaluate = (applyBuckets cc st id m).toReevaluate := by
  obtain ⟨ci, _, _, hst⟩ := compare_ok_elim h
  subst hst
  exact ⟨recordOutcome_wrongInX9 .., recordOutcome_toEvaluate ..,
    recordOutcome_toReevaluate ..⟩

/-! ## C1: review-bucket decision precedence -/

/-- C1: for every successful `compare(id, groundTruth, outcome)` call the
review bucket is chosen by the first applicable branch of the exact
precedence order of src/check.ts:551-561, independent of the match outcome:
an id with a correction override goes to `wrongInX9` and to no other bucket;
otherwise a mismatched, not-yet-evaluated id goes to `toEvaluate`; otherwise
a matched, already-evaluated id goes to `toReevaluate`; otherwise no bucket
is touched. -/
theorem compare_bucket_precedence (cc : CheckComparer) (st : CompareState)
    (id : Nat) (x9 : X9) (trs : List TranslatorResult) (st' : CompareState)
    (m : Bool) (h : compare cc st id x9 trs = .ok (st', m)) :
    ((cc.override id).isSome = true →
      st'.wrongInX9 = st.wrongInX9 ++ [id] ∧
      st'.toEvaluate = st.toEvaluate ∧ st'.toReevaluate = st.toReevaluate) ∧
    (cc.override id = none → m = false → cc.alreadyEvaluated.contains id = false →
      st'.toEvaluate = st.toEvaluate ++ [id] ∧
      st'.wrongInX9 = st.wrongInX9 ∧ st'.toReevaluate = st.toReevaluate) ∧
    (cc.override id = none → m = true → cc.alreadyEvaluated.contains id = true →
      st'.toReevaluate = st.toReevaluate ++ [id] ∧
      st'.wrongInX9 = st.wrongInX9 ∧ st'.toEvaluate = st.toEvaluate) ∧
    (cc.override id = none → m ≠ cc.alreadyEvaluated.contains id →
      st'.wrongInX9 = st.wrongInX9 ∧ st'.toEvaluate = st.toEvaluate ∧
      st'.toReevaluate = st.toReevaluate) := by
  obtain ⟨hw, he, hr⟩ := compare_ok_buckets h
  rw [hw, he, hr]
  refine ⟨fun h1 => ?_, fun h1 h2 h3 => ?_, fun h1 h2 h3 => ?_, fun h1 h2 => ?_⟩
  · simp [applyBuckets, h1]
  · have h3' : id ∉ cc.alreadyEvaluated := by simpa using h3
    simp [applyBuckets, h1, h2, h3']
  · have h3' : id ∈ cc.alreadyEvaluated := by simpa using h3
    simp [applyBuckets, h1, h2, h3']
  · cases m <;> cases h3 : cc.alreadyEvaluated.contains id <;>
      [skip; skip; skip; skip] <;>
    first
    | (exact absurd rfl (h3 ▸ h2))
    | (have h3' : id ∉ cc.alreadyEvaluated := by simpa using h3
       simp [applyBuckets, h1, h3'])
    | (have h3' : id ∈ cc.alreadyEvaluated := by simpa using h3
       simp [applyBuckets, h1, h3'])

/-- Witness for C1: check 5 has an override in `ccOverride`, so a `compare`
call files it into `wrongInX9` and into neither other bucket. -/
theorem compare_bucket_precedence_witness :
    compare ccOverride initCompareState 5 goodX9 [] =
      .ok (⟨[], [5], [5], [], [], 1⟩, false) ∧
    (⟨[], [5], [5], [], [], 1⟩ : CompareState).wrongInX9 =
      initCompareState.wrongInX9 ++ [5] ∧
    (⟨[], [5], [5], [], [], 1⟩ : CompareState).toEvaluate =
      initCompareState.toEvaluate ∧
    (⟨[], [5], [5], [], [], 1⟩ : CompareState).toReevaluate =
      initCompareState.toReevaluate :=
  ⟨rfl, (compare_bucket_precedence ccOverride initCompareState 5 goodX9 []
    ⟨[], [5], [5], [], [], 1⟩ false rfl).1 rfl⟩

/-! ## C4: match rule and short-circuit -/

theorem mismatchedFields_eq_nil {ci : CheckInfo} {r : TranslatorResult} :
    mismatchedFields ci r = [] ↔
      ci.routingNumber = r.routingNumber ∧ ci.accountNumber = r.accountNumber ∧
      ci.checkNumber = r.checkNumber := by
  unfold mismatchedFields
  by_cases h1 : ci.routingNumber = r.routingNumber <;>
  by_cases h2 : ci.accountNumber = r.accountNumber <;>
  by_cases h3 : ci.checkNumber = r.checkNumber <;>
  simp [h1, h2, h3]

theorem matchLoop_fst_iff (ci : CheckInfo) (trs : List TranslatorResult) :
    (matchLoop ci trs).1 = true ↔ ∃ r ∈ trs, mismatchedFields ci r = [] := by
  induction trs with
  | nil => simp [matchLoop]
  | cons r rest ih =>
    by_cases h : mismatchedFields ci r = []
    · simp [matchLoop, h]
    · simp [matchLoop, h, ih]

theorem matchLoop_snd_false (ci : CheckInfo) (trs : List TranslatorResult)
    (h : (matchLoop ci trs).1 = false) : (matchLoop ci trs).2 = trs.length := by
  induction trs with
  | nil => simp [matchLoop]
  | cons r rest ih =>
    by_cases hr : mismatchedFields ci r = []
    · simp [matchLoop, hr] at h
    · simp only [matchLoop, if_neg hr] at h ⊢
      simp [ih h]

theorem matchLoop_snd_true (ci : CheckInfo) (trs : List TranslatorResult)
    (h : (matchLoop ci trs).1 = true) :
    (matchLoop ci trs).2 =
      trs.findIdx (fun r => (mismatchedFields ci r).isEmpty) + 1 := by
  induction trs with
  | nil => simp [matchLoop] at h
  | cons r rest ih =>
    by_cases hr : mismatchedFields ci r = []
    · simp [matchLoop, hr, List.findIdx_cons]
    · have hne : (mismatchedFields ci r).isEmpty = false := by
        simpa [List.isEmpty_iff] using hr
      simp only [matchLoop, if_neg hr] at h ⊢
      simp [List.findIdx_cons, hne, ih h]

/-- C4: a successful `compare` call returns `true` iff some engine's
(routing, account, check-number) triple is exactly equal to the expected
triple (plain equality, no normalization); the engine loop short-circuits,
examining exactly up to the first matching engine, and examines every engine
when none matches (the check is then classified mismatched). -/
theorem compare_match_rule (cc : CheckComparer) (st : CompareState) (id : Nat)
    (x9 : X9) (trs : List TranslatorResult) (st' : CompareState) (m : Bool)
    (ci : CheckInfo) (hres : resolveCheckInfo cc id x9 = .ok ci)
    (h : compare cc st id x9 trs = .ok (st', m)) :
    (m = true ↔ ∃ r ∈ trs,
      ci.routingNumber = r.routingNumber ∧ ci.accountNumber = r.accountNumber ∧
      ci.checkNumber = r.checkNumber) ∧
    (m = true → (matchLoop ci trs).2 =
      trs.findIdx (fun r => (mismatchedFields ci r).isEmpty) + 1) ∧
    (m = false → (matchLoop ci trs).2 = trs.length) := by
  obtain ⟨ci', hres', hm, _⟩ := compare_ok_elim h
  rw [hres] at hres'
  injection hres' with hci
  subst hci
  subst hm
  refine ⟨?_, fun ht => matchLoop_snd_true ci trs ht,
    fun hf => matchLoop_snd_false ci trs hf⟩
  rw [matchLoop_fst_iff]
  simp [mismatchedFields_eq_nil]

/-- Witness for C4: with engines `[trBad, trGood, trBad]` the call matches
(the second engine equals the expected triple) and examines exactly two
engines, not three. -/
theorem compare_match_rule_witness :
    ((true : Bool) = true ↔ ∃ r ∈ [trBad, trGood, trBad],
      expCi.routingNumber = r.routingNumber ∧ expCi.accountNumber = r.accountNumber ∧
      expCi.checkNumber = r.checkNumber) ∧
    ((true : Bool) = true → (matchLoop expCi [trBad, trGood, trBad]).2 =
      [trBad, trGood, trBad].findIdx (fun r => (mismatchedFields expCi r).isEmpty) + 1) ∧
    ((true : Bool) = false →
      (matchLoop expCi [trBad, trGood, trBad]).2 = [trBad, trGood, trBad].length) :=
  compare_match_rule cc0 initCompareState 1 goodX9 [trBad, trGood, trBad]
    ⟨[1], [], [], [], [], 1⟩ true expCi rfl rfl

/-! ## C5: derivation of the expected triple from the raw record -/

theorem replaceFirstAux_append (a b : Char) :
    ∀ l : List Char, a ∉ l → replaceFirstAux a b (l ++ [a]) = l ++ [b] := by
  intro l
  induction l with
  | nil => intro _; simp [replaceFirstAux]
  | cons c cs ih =>
    intro h
    have hca : ¬(c = a) := fun hc => h (hc ▸ List.mem_cons_self c cs)
    have hcs : a ∉ cs := fun hm => h (List.mem_cons_of_mem c hm)
    simp only [List.cons_append, replaceFirstAux, if_neg hca]
    exact congrArg (fun t => c :: t) (ih hcs)

/-- C5: for an id without a correction override, the expected triple is
derived from the raw ground-truth record as: routing =
`payorBankRoutingNumber ++ payorBankCheckDigit`; account = `onUs` with its
trailing `/` delimiter replaced by `U`; check number = `auxiliaryOnUs` when
present, else omitted. -/
theorem expected_triple_derivation (cc : CheckComparer) (id : Nat)
    (pbr dig body : String) (aux : Option String)
    (hov : cc.override id = none) (hbody : '/' ∉ body.data) :
    resolveCheckInfo cc id ⟨some pbr, some dig, some (body ++ "/"), aux⟩ =
      .ok ⟨pbr ++ dig, body ++ "U", aux⟩ := by
  have hacc : replaceFirst (body ++ "/") '/' 'U' = body ++ "U" := by
    apply String.ext
    show replaceFirstAux '/' 'U' (body ++ "/").data = (body ++ "U").data
    rw [String.data_append, String.data_append]
    exact replaceFirstAux_append '/' 'U' body.data hbody
  unfold resolveCheckInfo
  rw [hov]
  show (Except.ok (⟨pbr ++ dig, replaceFirst (body ++ "/") '/' 'U', aux⟩ : CheckInfo) :
    Except CompareError CheckInfo) = _
  rw [hacc]

/-- Witness for C5: the spec's concrete example — raw ground truth
`{payorBankRoutingNumber:"1234567", payorBankCheckDigit:"8",
onUs:"1234567890/", auxiliaryOnUs:"1234567"}` yields routing `"12345678"`,
account `"1234567890U"`, check number `"1234567"`. -/
theorem expected_triple_derivation_witness :
    resolveCheckInfo cc0 7
      ⟨some "1234567", some "8", some ("1234567890" ++ "/"), some "1234567"⟩ =
      .ok ⟨"1234567" ++ "8", "1234567890" ++ "U", some "1234567"⟩ :=
  expected_triple_derivation cc0 7 "1234567" "8" "1234567890" (some "1234567")
    rfl (by decide)

/-! ## C9: a resolution failure propagates and leaves the state untouched -/

theorem runCompares_append_ok (cc : CheckComparer) :
    ∀ (l1 : List (Nat × X9 × List TranslatorResult)) (st st1 : CompareState),
    runCompares cc st l1 = (st1, none) →
    ∀ l2, runCompares cc st (l1 ++ l2) = runCompares cc st1 l2 := by
  intro l1
  induction l1 with
  | nil =>
    intro st st1 h l2
    simp only [runCompares, Prod.mk.injEq] at h
    rw [h.1]
    simp
  | cons p rest ih =>
    intro st st1 h l2
    obtain ⟨id, x9, trs⟩ := p
    cases hc : compare cc st id x9 trs with
    | error e => simp [runCompares, hc] at h
    | ok r =>
      obtain ⟨stm, b⟩ := r
      simp only [runCompares, hc] at h
      simpa [runCompares, hc] using ih stm st1 h l2

/-- C9: if resolving the expected triple for a `compare` call fails, the
error propagates out of `compare` unchanged, and a batch that reaches that
call stops with the running state exactly as it was before the call. -/
theorem resolve_failure_preserves_state (cc : CheckComparer) (id : Nat)
    (x9 : X9) (trs : List TranslatorResult) (e : CompareError)
    (hres : resolveCheckInfo cc id x9 = .error e) :
    (∀ st, compare cc st id x9 trs = .error e) ∧
    (∀ (st0 : CompareState) (pre rest : List (Nat × X9 × List TranslatorResult))
      (stPre : CompareState), runCompares cc st0 pre = (stPre, none) →
      runCompares cc st0 (pre ++ (id, x9, trs) :: rest) = (stPre, some e)) := by
  have hc : ∀ st, compare cc st id x9 trs = .error e := fun st => by
    simp [compare, hres]
  refine ⟨hc, fun st0 pre rest stPre hpre => ?_⟩
  rw [runCompares_append_ok cc pre st0 stPre hpre]
  simp [runCompares, hc stPre]

/-- Witness for C9: check 9 has the malformed override `"xyz"`; its
resolution fails, `compare` returns that error, and the batch state is the
initial state, untouched. -/
theorem resolve_failure_preserves_state_witness :
    resolveCheckInfo ccBadOverride 9 goodX9 = .error (.malformedMicr "xyz") ∧
    compare ccBadOverride initCompareState 9 goodX9 [] =
      .error (.malformedMicr "xyz") ∧
    runCompares ccBadOverride initCompareState [(9, goodX9, [])] =
      (initCompareState, some (.malformedMicr "xyz")) :=
  ⟨rfl,
   (resolve_failure_preserves_state ccBadOverride 9 goodX9 []
     (.malformedMicr "xyz") rfl).1 initCompareState,
   (resolve_failure_preserves_state ccBadOverride 9 goodX9 []
     (.malformedMicr "xyz") rfl).2 initCompareState [] [] initCompareState rfl⟩

/-! ## C3: matches/mismatches partition the compared ids -/

theorem compare_ok_fields {cc : CheckComparer} {st : CompareState} {id : Nat}
    {x9 : X9} {trs : List TranslatorResult} {st' : CompareState} {m : Bool}
    (h : compare cc st id x9 trs = .ok (st', m)) :
    st'.«matches» = (if m then st.«matches» ++ [id] else st.«matches») ∧
    st'.mismatches = (if m then st.mismatches else st.mismatches ++ [id]) ∧
    st'.comparisonCount = st.comparisonCount + 1 ∧
    matchedOf cc (id, x9, trs) = m := by
  obtain ⟨ci, hres, hm, hst⟩ := compare_ok_elim h
  subst hst
  refine ⟨?_, ?_, ?_, ?_⟩
  · cases m <;> simp [recordOutcome, applyBuckets_matches]
  · cases m <;> simp [recordOutcome, applyBuckets_mismatches]
  · simp [recordOutcome_count, applyBuckets_count]
  · simp [matchedOf, hres, hm]

theorem runCompares_chars (cc : CheckComparer) :
    ∀ (inputs : List (Nat × X9 × List TranslatorResult)) (st : CompareState),
    (runCompares cc st inputs).2 = none →
    (runCompares cc st inputs).1.«matches» =
      st.«matches» ++ (inputs.filter (fun p => matchedOf cc p)).map (fun p => p.1) ∧
    (runCompares cc st inputs).1.mismatches =
      st.mismatches ++ (inputs.filter (fun p => !matchedOf cc p)).map (fun p => p.1) ∧
    (runCompares cc st inputs).1.comparisonCount =
      st.comparisonCount + inputs.length := by
  intro inputs
  induction inputs with
  | nil => intro st _; simp [runCompares]
  | cons p rest ih =>
    intro st h
    obtain ⟨id, x9, trs⟩ := p
    cases hc : compare cc st id x9 trs with
    | error e => simp [runCompares, hc] at h
    | ok r =>
      obtain ⟨st1, m⟩ := r
      simp only [runCompares, hc] at h ⊢
      obtain ⟨hma, hmi, hcnt, hmo⟩ := compare_ok_fields hc
      obtain ⟨h1, h2, h3⟩ := ih st1 h
      rw [h1, h2, h3, hma, hmi, hcnt, List.filter_cons, List.filter_cons]
      cases m <;> simp [hmo] <;> omega

/-- C3: after a batch of successfully completed `compare` calls on pairwise
distinct ids, each compared id sits in `«matches»` exactly when its call
matched and in `mismatches` exactly when it did not, never in both;
`«matches».length + mismatches.length` equals the number of successfully
completed comparisons, which is the comparison count. -/
theorem compare_partition (cc : CheckComparer)
    (inputs : List (Nat × X9 × List TranslatorResult)) (stF : CompareState)
    (h : runCompares cc initCompareState inputs = (stF, none))
    (hnd : (inputs.map (fun p => p.1)).Nodup) :
    stF.comparisonCount = inputs.length ∧
    stF.«matches».length + stF.mismatches.length = stF.comparisonCount ∧
    stF.«matches».Disjoint stF.mismatches ∧
    ∀ p ∈ inputs,
      (matchedOf cc p = true → p.1 ∈ stF.«matches» ∧ p.1 ∉ stF.mismatches) ∧
      (matchedOf cc p = false → p.1 ∈ stF.mismatches ∧ p.1 ∉ stF.«matches») := by
  have h2 : (runCompares cc initCompareState inputs).2 = none := by rw [h]
  obtain ⟨hma, hmi, hcnt⟩ := runCompares_chars cc inputs initCompareState h2
  rw [h] at hma hmi hcnt
  simp only [initCompareState, List.nil_append, Nat.zero_add] at hma hmi hcnt
  have hdisj : stF.«matches».Disjoint stF.mismatches := by
    intro a ha hb
    rw [hma] at ha
    rw [hmi] at hb
    obtain ⟨p, hp, hpa⟩ := List.mem_map.1 ha
    obtain ⟨q, hq, hqa⟩ := List.mem_map.1 hb
    have hpf := List.mem_filter.1 hp
    have hqf := List.mem_filter.1 hq
    have hpq : p = q :=
      List.inj_on_of_nodup_map hnd hpf.1 hqf.1 (hpa.trans hqa.symm)
    rw [hpq] at hpf
    rw [hpf.2] at hqf
    simp at hqf
  refine ⟨hcnt, ?_, hdisj, fun p hp => ⟨fun hmt => ?_, fun hmf => ?_⟩⟩
  · rw [hma, hmi, hcnt]
    simpa using (List.length_eq_length_filter_add
      (l := inputs) (fun p => matchedOf cc p)).symm
  · have hmem : p.1 ∈ stF.«matches» := by
      rw [hma]
      exact List.mem_map.2 ⟨p, List.mem_filter.2 ⟨hp, hmt⟩, rfl⟩
    exact ⟨hmem, fun hb => hdisj hmem hb⟩
  · have hmem : p.1 ∈ stF.mismatches := by
      rw [hmi]
      exact List.mem_map.2 ⟨p, List.mem_filter.2 ⟨hp, by simp [hmf]⟩, rfl⟩
    exact ⟨hmem, fun ha => hdisj ha hmem⟩

/-- Witness for C3: a two-check batch, one matching, one mismatching. -/
theorem compare_partition_witness :
    runCompares cc0 initCompareState [(1, goodX9, [trGood]), (2, goodX9, [trBad])] =
      (⟨[1], [2], [], [2], [], 2⟩, none) ∧
    (([(1, goodX9, [trGood]), (2, goodX9, [trBad])].map (fun p => p.1)).Nodup) ∧
    ((⟨[1], [2], [], [2], [], 2⟩ : CompareState).comparisonCount =
      [(1, goodX9, [trGood]), (2, goodX9, [trBad])].length ∧
    (⟨[1], [2], [], [2], [], 2⟩ : CompareState).«matches».length +
      (⟨[1], [2], [], [2], [], 2⟩ : CompareState).mismatches.length =
      (⟨[1], [2], [], [2], [], 2⟩ : CompareState).comparisonCount ∧
    (⟨[1], [2], [], [2], [], 2⟩ : CompareState).«matches».Disjoint
      (⟨[1], [2], [], [2], [], 2⟩ : CompareState).mismatches ∧
    ∀ p ∈ [(1, goodX9, [trGood]), (2, goodX9, [trBad])],
      (matchedOf cc0 p = true →
        p.1 ∈ (⟨[1], [2], [], [2], [], 2⟩ : CompareState).«matches» ∧
        p.1 ∉ (⟨[1], [2], [], [2], [], 2⟩ : CompareState).mismatches) ∧
      (matchedOf cc0 p = false →
        p.1 ∈ (⟨[1], [2], [], [2], [], 2⟩ : CompareState).mismatches ∧
        p.1 ∉ (⟨[1], [2], [], [2], [], 2⟩ : CompareState).«matches»)) :=
  ⟨rfl, by decide,
   compare_partition cc0 [(1, goodX9, [trGood]), (2, goodX9, [trBad])]
     ⟨[1], [2], [], [2], [], 2⟩ rfl (by decide)⟩

/-! ## C7: the three review buckets are pairwise disjoint -/

theorem compare_bucket_inv {cc : CheckComparer} {st : CompareState} {id : Nat}
    {x9 : X9} {trs : List TranslatorResult} {st' : CompareState} {m : Bool}
    (h : compare cc st id x9 trs = .ok (st', m))
    (h1 : ∀ x ∈ st.toEvaluate, cc.override x = none ∧ x ∉ cc.alreadyEvaluated)
    (h2 : ∀ x ∈ st.toReevaluate, cc.override x = none ∧ x ∈ cc.alreadyEvaluated)
    (h3 : ∀ x ∈ st.wrongInX9, (cc.override x).isSome = true) :
    (∀ x ∈ st'.toEvaluate, cc.override x = none ∧ x ∉ cc.alreadyEvaluated) ∧
    (∀ x ∈ st'.toReevaluate, cc.override x = none ∧ x ∈ cc.alreadyEvaluated) ∧
    (∀ x ∈ st'.wrongInX9, (cc.override x).isSome = true) := by
  obtain ⟨hw, he, hr⟩ := compare_ok_buckets h
  rw [hw, he, hr]
  unfold applyBuckets
  split_ifs with b1 b2 b3
  · refine ⟨h1, h2, fun x hx => ?_⟩
    rcases List.mem_append.1 hx with hx | hx
    · exact h3 x hx
    · rw [List.mem_singleton.1 hx]; exact b1
  · refine ⟨fun x hx => ?_, h2, h3⟩
    rcases List.mem_append.1 hx with hx | hx
    · exact h1 x hx
    · rw [List.mem_singleton.1 hx]
      simp only [Bool.and_eq_true, Bool.not_eq_true'] at b2
      refine ⟨Option.not_isSome_iff_eq_none.1 ?_, ?_⟩
      · simp [b1]
      · simpa using b2.2
  · refine ⟨h1, fun x hx => ?_, h3⟩
    rcases List.mem_append.1 hx with hx | hx
    · exact h2 x hx
    · rw [List.mem_singleton.1 hx]
      simp only [Bool.and_eq_true] at b3
      refine ⟨Option.not_isSome_iff_eq_none.1 ?_, ?_⟩
      · simp [b1]
      · simpa using b3.2
  · exact ⟨h1, h2, h3⟩

theorem runCompares_bucket_inv (cc : CheckComparer) :
    ∀ (inputs : List (Nat × X9 × List TranslatorResult)) (st : CompareState),
    (∀ x ∈ st.toEvaluate, cc.override x = none ∧ x ∉ cc.alreadyEvaluated) →
    (∀ x ∈ st.toReevaluate, cc.override x = none ∧ x ∈ cc.alreadyEvaluated) →
    (∀ x ∈ st.wrongInX9, (cc.override x).isSome = true) →
    (∀ x ∈ (runCompares cc st inputs).1.toEvaluate,
      cc.override x = none ∧ x ∉ cc.alreadyEvaluated) ∧
    (∀ x ∈ (runCompares cc st inputs).1.toReevaluate,
      cc.override x = none ∧ x ∈ cc.alreadyEvaluated) ∧
    (∀ x ∈ (runCompares cc st inputs).1.wrongInX9,
      (cc.override x).isSome = true) := by
  intro inputs
  induction inputs with
  | nil => intro st h1 h2 h3; exact ⟨h1, h2, h3⟩
  | cons p rest ih =>
    intro st h1 h2 h3
    obtain ⟨id, x9, trs⟩ := p
    cases hc : compare cc st id x9 trs with
    | error e => simpa [runCompares, hc] using ⟨h1, h2, h3⟩
    | ok r =>
      obtain ⟨st1, m⟩ := r
      obtain ⟨g1, g2, g3⟩ := compare_bucket_inv hc h1 h2 h3
      simpa [runCompares, hc] using ih st1 g1 g2 g3

/-- C7: at every point during a batch run the three review buckets are
pairwise disjoint: no id appears in more than one of `toEvaluate`,
`toReevaluate` and `wrongInX9`. -/
theorem buckets_pairwise_disjoint (cc : CheckComparer)
    (inputs : List (Nat × X9 × List TranslatorResult)) :
    (runCompares cc initCompareState inputs).1.toEvaluate.Disjoint
      (runCompares cc initCompareState inputs).1.toReevaluate ∧
    (runCompares cc initCompareState inputs).1.toEvaluate.Disjoint
      (runCompares cc initCompareState inputs).1.wrongInX9 ∧
    (runCompares cc initCompareState inputs).1.toReevaluate.Disjoint
      (runCompares cc initCompareState inputs).1.wrongInX9 := by
  obtain ⟨h1, h2, h3⟩ := runCompares_bucket_inv cc inputs initCompareState
    (by simp [initCompareState]) (by simp [initCompareState])
    (by simp [initCompareState])
  refine ⟨fun a ha hb => ?_, fun a ha hb => ?_, fun a ha hb => ?_⟩
  · exact (h1 a ha).2 (h2 a hb).2
  · have := (h1 a ha).1
    have := h3 a hb
    simp_all
  · have := (h2 a ha).1
    have := h3 a hb
    simp_all

/-! ## Helper lemmas: Queue -/

theorem fillAux_spec (q : Queue) :
    ∀ (n : Nat) (st : QueueState), q.max ≤ st.pending.length + n →
    (fillAux q n st).pending =
      st.pending ++ List.range' st.produced (q.max - st.pending.length) ∧
    (fillAux q n st).produced = st.produced + (q.max - st.pending.length) ∧
    (fillAux q n st).awaited = st.awaited ∧
    (fillAux q n st).time = st.time := by
  intro n
  induction n with
  | zero =>
    intro st h
    have h0 : q.max - st.pending.length = 0 := by omega
    simp [fillAux, h0]
  | succ n ih =>
    intro st h
    by_cases hlt : st.pending.length < q.max
    · have hrec := ih (pushJob st) (by simp [pushJob]; omega)
      have hlen1 : (pushJob st).pending.length = st.pending.length + 1 := by
        simp [pushJob]
      rw [hlen1] at hrec
      have hpend1 : (pushJob st).pending = st.pending ++ [st.produced] := rfl
      have hprod1 : (pushJob st).produced = st.produced + 1 := rfl
      have hawa1 : (pushJob st).awaited = st.awaited := rfl
      have htime1 : (pushJob st).time = st.time := rfl
      rw [hpend1, hprod1, hawa1, htime1] at hrec
      obtain ⟨hp, hpr, ha, ht⟩ := hrec
      have hk : q.max - st.pending.length = (q.max - (st.pending.length + 1)) + 1 := by
        omega
      simp only [fillAux, if_pos hlt]
      refine ⟨?_, ?_, ha, ht⟩
      · rw [hp, hk, List.range'_succ]
        simp
      · rw [hpr]
        omega
    · have h0 : q.max - st.pending.length = 0 := by omega
      simp [fillAux, if_neg hlt]
      simp [h0]

theorem getNext_eq_cons (q : Queue) (st : QueueState) (p : Nat) (rest : List Nat)
    (h : (fill q st).pending = p :: rest) :
    getNext q st =
      ({ fill q st with
          pending := rest
          time := Nat.max (fill q st).time (q.done p)
          awaited := (fill q st).awaited ++ [p]
          ops := (fill q st).ops ++ [⟨false, rest.length + 1, rest.length⟩] },
       q.prod p) := by
  unfold getNext
  generalize hst1 : fill q st = st1 at *
  obtain ⟨pe, pr, t, inv, aw, ops⟩ := st1
  simp only at h
  subst h
  rfl

theorem getNext_eq_nil (q : Queue) (st : QueueState)
    (h : (fill q st).pending = []) :
    getNext q st = (fill q st, .ok .jsUndefined) := by
  unfold getNext
  generalize hst1 : fill q st = st1 at *
  obtain ⟨pe, pr, t, inv, aw, ops⟩ := st1
  simp only at h
  subst h
  rfl

theorem getNext_step (q : Queue) (hmax : 0 < q.max) (a : Nat) (st : QueueState)
    (hp : (st.pending = List.range' a (q.max - 1) ∧
           st.produced = a + (q.max - 1)) ∨
          (a = 0 ∧ st.pending = [] ∧ st.produced = 0)) :
    (getNext q st).2 = q.prod a ∧
    (getNext q st).1.pending = List.range' (a + 1) (q.max - 1) ∧
    (getNext q st).1.produced = (a + 1) + (q.max - 1) ∧
    (getNext q st).1.awaited = st.awaited ++ [a] := by
  have hcons : (fill q st).pending = a :: List.range' (a + 1) (q.max - 1) ∧
      (fill q st).produced = a + q.max ∧ (fill q st).awaited = st.awaited := by
    simp only [fill]
    cases hp with
    | inl hA =>
      obtain ⟨hpend0, hprod0⟩ := hA
      have hlen : st.pending.length = q.max - 1 := by
        rw [hpend0]; exact List.length_range' ..
      have hf := fillAux_spec q q.max st (by omega)
      obtain ⟨hp1, hp2, hp3, _⟩ := hf
      have h1 : q.max - st.pending.length = 1 := by omega
      rw [h1] at hp1 hp2
      rw [hpend0, hprod0] at hp1
      rw [hprod0] at hp2
      refine ⟨?_, by rw [hp2]; omega, hp3⟩
      rw [hp1]
      have hcat : List.range' a (q.max - 1) ++ List.range' (a + (q.max - 1)) 1 =
          List.range' a ((q.max - 1) + 1) := by
        rw [List.range'_1_concat a (q.max - 1)]
        simp
      rw [hcat]
      have hq2 : (q.max - 1) + 1 = q.max := by omega
      rw [hq2]
      conv_lhs => rw [show q.max = (q.max - 1) + 1 from by omega]
      rw [List.range'_succ]
    | inr hB =>
      obtain ⟨ha0, hpend0, hprod0⟩ := hB
      have hf := fillAux_spec q q.max st (by omega)
      obtain ⟨hp1, hp2, hp3, _⟩ := hf
      rw [hpend0, hprod0] at hp1 hp2
      simp only [List.nil_append, List.length_nil, Nat.sub_zero,
        Nat.zero_add] at hp1 hp2
      subst ha0
      refine ⟨?_, by omega, hp3⟩
      rw [hp1]
      conv_lhs => rw [show q.max = (q.max - 1) + 1 from by omega]
      rw [List.range'_succ]
  have hg := getNext_eq_cons q st a (List.range' (a + 1) (q.max - 1)) hcons.1
  rw [hg]
  refine ⟨rfl, rfl, ?_, ?_⟩
  · show (fill q st).produced = (a + 1) + (q.max - 1)
    rw [hcons.2.1]
    omega
  · show (fill q st).awaited ++ [a] = st.awaited ++ [a]
    rw [hcons.2.2]

theorem runAux_stop (q : Queue) (hmax : 0 < q.max) :
    ∀ (s fuel a : Nat) (st : QueueState),
    ((st.pending = List.range' a (q.max - 1) ∧ st.produced = a + (q.max - 1)) ∨
     (a = 0 ∧ st.pending = [] ∧ st.produced = 0)) →
    (∀ k, k < s → okTruthy (q.prod (a + k)) = true) →
    okTruthy (q.prod (a + s)) = false →
    s < fuel →
    (runAux q fuel st).fuelOut = false ∧
    (runAux q fuel st).state.awaited = st.awaited ++ List.range' a (s + 1) ∧
    (runAux q fuel st).state.produced = (a + s) + q.max ∧
    (runAux q fuel st).err =
      (match q.prod (a + s) with | .error e => some e | .ok _ => none) := by
  intro s
  induction s with
  | zero =>
    intro fuel a st hp _ hstop hf
    obtain ⟨fuel, rfl⟩ : ∃ f, fuel = f + 1 := ⟨fuel - 1, by omega⟩
    obtain ⟨h2, _, hprodS, hawaS⟩ := getNext_step q hmax a st hp
    have hstop' : okTruthy (q.prod a) = false := by simpa using hstop
    cases hgn : getNext q st with
    | mk st1 r =>
      simp only [hgn] at h2 hprodS hawaS
      subst h2
      cases hpa : q.prod a with
      | error e =>
        have hrun : runAux q (fuel + 1) st = ⟨st1, some e, false⟩ := by
          simp [runAux, hgn, hpa]
        rw [hrun]
        refine ⟨rfl, ?_, ?_, ?_⟩
        · show st1.awaited = _
          rw [hawaS]
          simp
        · show st1.produced = _
          rw [hprodS]
          omega
        · show some e = _
          have hz : a + 0 = a := rfl
          rw [hz, hpa]
      | ok v =>
        have hfal : v.falsy = true := by
          rw [hpa] at hstop'
          simpa [okTruthy] using hstop'
        have hrun : runAux q (fuel + 1) st = ⟨st1, none, false⟩ := by
          simp [runAux, hgn, hpa, hfal]
        rw [hrun]
        refine ⟨rfl, ?_, ?_, ?_⟩
        · show st1.awaited = _
          rw [hawaS]
          simp
        · show st1.produced = _
          rw [hprodS]
          omega
        · show (none : Option String) = _
          have hz : a + 0 = a := rfl
          rw [hz, hpa]
  | succ s ih =>
    intro fuel a st hp hpre hstop hf
    obtain ⟨fuel, rfl⟩ : ∃ f, fuel = f + 1 := ⟨fuel - 1, by omega⟩
    obtain ⟨h2, hpendS, hprodS, hawaS⟩ := getNext_step q hmax a st hp
    cases hgn : getNext q st with
    | mk st1 r =>
      simp only [hgn] at h2 hpendS hprodS hawaS
      subst h2
      have h0 : okTruthy (q.prod a) = true := by
        simpa using hpre 0 (Nat.succ_pos s)
      cases hpa : q.prod a with
      | error e => rw [hpa] at h0; simp [okTruthy] at h0
      | ok v =>
        have hfal : v.falsy = false := by
          rw [hpa] at h0
          simpa [okTruthy] using h0
        have hrun : runAux q (fuel + 1) st = runAux q fuel st1 := by
          simp [runAux, hgn, hpa, hfal]
        rw [hrun]
        have hpre' : ∀ k, k < s → okTruthy (q.prod (a + 1 + k)) = true := by
          intro k hk
          have hik := hpre (k + 1) (by omega)
          rwa [show a + (k + 1) = a + 1 + k from by omega] at hik
        have hstop' : okTruthy (q.prod (a + 1 + s)) = false := by
          rwa [show a + (s + 1) = a + 1 + s from by omega] at hstop
        obtain ⟨ih1, ih2, ih3, ih4⟩ := ih fuel (a + 1) st1
          (Or.inl ⟨hpendS, hprodS⟩) hpre' hstop' (by omega)
        refine ⟨ih1, ?_, ?_, ?_⟩
        · rw [ih2, hawaS, List.append_assoc]
          have hone : [a] ++ List.range' (a + 1) (s + 1) =
              List.range' a (s + 1 + 1) := by
            rw [List.range'_succ]
            rfl
          rw [hone]
        · rw [ih3]
          omega
        · rw [show a + 1 + s = a + (s + 1) from by omega] at ih4
          exact ih4

/-- The first produced position at which the `run` loop stops: every earlier
producer call resolves truthy and the call at `s` does not.  The loop then
terminates having awaited exactly positions `0..s` and produced exactly
positions `0..s+max-1`; it fails precisely when the call at `s` rejected. -/
theorem run_stops_at_first_non_truthy (prod : Nat → Except String JSVal)
    (done : Nat → Nat) (mx s fuel : Nat) (hmax : 0 < mx)
    (hpre : ∀ k, k < s → okTruthy (prod k) = true)
    (hstop : okTruthy (prod s) = false) (hf : s < fuel) :
    (Queue.run ⟨prod, done, mx⟩ fuel).fuelOut = false ∧
    (Queue.run ⟨prod, done, mx⟩ fuel).state.awaited = List.range (s + 1) ∧
    (Queue.run ⟨prod, done, mx⟩ fuel).state.produced = s + mx ∧
    (Queue.run ⟨prod, done, mx⟩ fuel).err =
      (match prod s with | .error e => some e | .ok _ => none) := by
  have h := runAux_stop ⟨prod, done, mx⟩ hmax s fuel 0 initQueueState
    (Or.inr ⟨rfl, rfl, rfl⟩)
    (by intro k hk; simpa using hpre k hk)
    (by simpa using hstop) hf
  obtain ⟨h1, h2, h3, h4⟩ := h
  refine ⟨h1, ?_, by simpa using h3, by simpa using h4⟩
  rw [Queue.run] at *
  rw [h2]
  simp [initQueueState, List.range_eq_range']

/-! ## C2: slots are refilled oldest-first, not completion-first -/

/-- C2: with concurrency 2 and three jobs followed by the sentinel, when job
2 (index 1) completes before job 1 (index 0), the producer is invoked for
job 3 (index 2) exactly at job 1's completion instant — after job 1's
promise resolves, even though job 2 freed a slot earlier — and the promises
are awaited in queue order `[0, 1, 2, 3]` regardless of completion order. -/
theorem queue_refills_oldest_first (done : Nat → Nat) (h : done 1 < done 0) :
    (Queue.run ⟨prodThree, done, 2⟩ 10).state.invokes[2]? = some (2, done 0) ∧
    done 1 < done 0 ∧
    (Queue.run ⟨prodThree, done, 2⟩ 10).state.awaited = [0, 1, 2, 3] := by
  have h0 : (Queue.run ⟨prodThree, done, 2⟩ 10).state.invokes[2]? =
      some (2, Nat.max 0 (done 0)) := rfl
  have h1 : Nat.max 0 (done 0) = done 0 := Nat.max_eq_right (Nat.zero_le _)
  rw [h1] at h0
  exact ⟨h0, h, rfl⟩

/-- Witness for C2: with `doneW` (job 1 completes at 3, job 0 at 5), job 2's
producer invocation happens at instant 5. -/
theorem queue_refills_oldest_first_witness :
    doneW 1 < doneW 0 ∧
    ((Queue.run ⟨prodThree, doneW, 2⟩ 10).state.invokes[2]? = some (2, 5) ∧
     doneW 1 < doneW 0 ∧
     (Queue.run ⟨prodThree, doneW, 2⟩ 10).state.awaited = [0, 1, 2, 3]) := by
  have hth := queue_refills_oldest_first doneW (by decide)
  exact ⟨by decide, hth.1.trans rfl, hth.2.1, hth.2.2⟩

/-! ## C6: failure propagation out of Queue.run -/

/-- Counterexample to C6 as stated: for `qAbandon` (max 2; call 0 yields the
sentinel, call 1 rejects), `run` returns normally even though a produced job
failed — the rejected promise was produced to fill the queue but abandoned
when the sentinel broke the loop.  Hence "run fails iff some produced job
fails" is false. -/
theorem run_failure_iff_counterexample :
    (qAbandon.run 10).err = none ∧
    (qAbandon.run 10).fuelOut = false ∧
    qAbandon.prod 1 = .error "boom" ∧
    1 < (qAbandon.run 10).state.produced ∧
    ¬(((qAbandon.run 10).err.isSome = true) ↔
      ∃ k, k < (qAbandon.run 10).state.produced ∧
        ∃ e, qAbandon.prod k = .error e) := by
  refine ⟨rfl, rfl, rfl, by decide, fun hiff => ?_⟩
  have hs : (qAbandon.run 10).err.isSome = true :=
    hiff.2 ⟨1, by decide, "boom", rfl⟩
  have hn : (qAbandon.run 10).err.isSome = false := rfl
  exact Bool.noConfusion (hn.symm.trans hs)

/-- C6 (amended): `Queue.run` fails iff the job at the stopping position —
the first producer call that does not resolve to a truthy value — is a
rejection.  A rejection that the runner awaits propagates to the caller with
no retry and no suppression; if every produced job resolves, `run` returns
normally once the sentinel (position `s`) is awaited, abandoning the
`max - 1` jobs produced beyond it. -/
theorem run_failure_propagation (prod : Nat → Except String JSVal)
    (done : Nat → Nat) (mx s fuel : Nat) (hmax : 0 < mx)
    (hpre : ∀ k, k < s → okTruthy (prod k) = true)
    (hstop : okTruthy (prod s) = false) (hf : s < fuel) :
    ((Queue.run ⟨prod, done, mx⟩ fuel).err.isSome = true ↔
      ∃ e, prod s = .error e) ∧
    (Queue.run ⟨prod, done, mx⟩ fuel).fuelOut = false ∧
    (Queue.run ⟨prod, done, mx⟩ fuel).state.awaited = List.range (s + 1) ∧
    (Queue.run ⟨prod, done, mx⟩ fuel).state.produced = s + mx ∧
    (Queue.run ⟨prod, done, mx⟩ fuel).err =
      (match prod s with | .error e => some e | .ok _ => none) := by
  obtain ⟨h1, h2, h3, h4⟩ :=
    run_stops_at_first_non_truthy prod done mx s fuel hmax hpre hstop hf
  refine ⟨?_, h1, h2, h3, h4⟩
  rw [h4]
  cases hps : prod s with
  | error e => simp
  | ok v => simp

/-- Witness for C6 (amended): `prodFail` rejects at position 1 after a
truthy job at position 0; the rejection propagates out of `run`. -/
theorem run_failure_propagation_witness :
    ((Queue.run ⟨prodFail, doneW, 2⟩ 5).err.isSome = true ↔
      ∃ e, prodFail 1 = .error e) ∧
    (Queue.run ⟨prodFail, doneW, 2⟩ 5).fuelOut = false ∧
    (Queue.run ⟨prodFail, doneW, 2⟩ 5).state.awaited = List.range (1 + 1) ∧
    (Queue.run ⟨prodFail, doneW, 2⟩ 5).state.produced = 1 + 2 ∧
    (Queue.run ⟨prodFail, doneW, 2⟩ 5).err =
      (match prodFail 1 with | .error e => some e | .ok _ => none) :=
  run_failure_propagation prodFail doneW 2 1 5 (by decide)
    (fun k hk => by
      have hk0 : k = 0 := by omega
      subst hk0
      rfl)
    rfl (by decide)

/-! ## C8: at most max producer invocations are outstanding -/

theorem fillAux_ops (q : Queue) :
    ∀ (n : Nat) (st : QueueState), st.pending.length ≤ q.max →
    (∀ op ∈ st.ops, op.after ≤ q.max ∧ (op.push = true → op.before < q.max)) →
    (fillAux q n st).pending.length ≤ q.max ∧
    ∀ op ∈ (fillAux q n st).ops,
      op.after ≤ q.max ∧ (op.push = true → op.before < q.max) := by
  intro n
  induction n with
  | zero => intro st h1 h2; exact ⟨h1, h2⟩
  | succ n ih =>
    intro st h1 h2
    by_cases hlt : st.pending.length < q.max
    · simp only [fillAux, if_pos hlt]
      apply ih
      · simp only [pushJob, List.length_append, List.length_cons,
          List.length_nil]
        omega
      · intro op hop
        simp only [pushJob, List.mem_append, List.mem_singleton] at hop
        rcases hop with hop | hop
        · exact h2 op hop
        · subst hop
          exact ⟨by simpa using hlt, fun _ => hlt⟩
    · simp only [fillAux, if_neg hlt]
      exact ⟨h1, h2⟩

theorem getNext_ops (q : Queue) (st : QueueState)
    (h1 : st.pending.length ≤ q.max)
    (h2 : ∀ op ∈ st.ops, op.after ≤ q.max ∧ (op.push = true → op.before < q.max)) :
    (getNext q st).1.pending.length ≤ q.max ∧
    ∀ op ∈ (getNext q st).1.ops,
      op.after ≤ q.max ∧ (op.push = true → op.before < q.max) := by
  obtain ⟨hf1, hf2⟩ := fillAux_ops q q.max st h1 h2
  rw [show fillAux q q.max st = fill q st from rfl] at hf1 hf2
  cases hp : (fill q st).pending with
  | nil =>
    rw [getNext_eq_nil q st hp]
    refine ⟨?_, hf2⟩
    show (fill q st).pending.length ≤ q.max
    rw [hp]
    simp
  | cons p rest =>
    rw [getNext_eq_cons q st p rest hp]
    have hlen : rest.length + 1 ≤ q.max := by
      have hl := hf1
      rw [hp] at hl
      simpa using hl
    refine ⟨?_, ?_⟩
    · show rest.length ≤ q.max
      omega
    · intro op hop
      simp only [List.mem_append, List.mem_singleton] at hop
      rcases hop with hop | hop
      · exact hf2 op hop
      · subst hop
        refine ⟨?_, fun hpp => Bool.noConfusion hpp⟩
        show rest.length ≤ q.max
        omega

theorem runAux_ops (q : Queue) :
    ∀ (fuel : Nat) (st : QueueState), st.pending.length ≤ q.max →
    (∀ op ∈ st.ops, op.after ≤ q.max ∧ (op.push = true → op.before < q.max)) →
    (runAux q fuel st).state.pending.length ≤ q.max ∧
    ∀ op ∈ (runAux q fuel st).state.ops,
      op.after ≤ q.max ∧ (op.push = true → op.before < q.max) := by
  intro fuel
  induction fuel with
  | zero => intro st h1 h2; exact ⟨h1, h2⟩
  | succ fuel ih =>
    intro st h1 h2
    obtain ⟨g1, g2⟩ := getNext_ops q st h1 h2
    cases hgn : getNext q st with
    | mk st1 r =>
      simp only [hgn] at g1 g2
      cases r with
      | error e =>
        simp only [runAux, hgn]
        exact ⟨g1, g2⟩
      | ok v =>
        simp only [runAux, hgn]
        cases hfv : v.falsy with
        | true =>
          simp only [hfv, if_true]
          exact ⟨g1, g2⟩
        | false =>
          simp only [hfv, Bool.false_eq_true, if_false]
          exact ih st1 g1 g2

/-- C8: at every point during `Queue.run` with a positive limit, the
in-flight promise array holds at most `max` entries — every push/shift
micro-operation leaves at most `max` entries, and a push only ever happens
from a state with fewer than `max` entries. -/
theorem run_bounded_concurrency (q : Queue) (fuel : Nat) (hmax : 0 < q.max) :
    (∀ op ∈ (q.run fuel).state.ops,
      op.after ≤ q.max ∧ (op.push = true → op.before < q.max)) ∧
    (q.run fuel).state.pending.length ≤ q.max := by
  obtain ⟨h1, h2⟩ := runAux_ops q fuel initQueueState
    (by simp [initQueueState])
    (by intro op hop; simp [initQueueState] at hop)
  exact ⟨h2, h1⟩

/-- Witness for C8: the three-job producer under limit 2. -/
theorem run_bounded_concurrency_witness :
    (0 < (2 : Nat)) ∧
    ((∀ op ∈ (Queue.run ⟨prodThree, doneW, 2⟩ 10).state.ops,
      op.after ≤ 2 ∧ (op.push = true → op.before < 2)) ∧
     (Queue.run ⟨prodThree, doneW, 2⟩ 10).state.pending.length ≤ 2) :=
  ⟨by decide, run_bounded_concurrency ⟨prodThree, doneW, 2⟩ 10 (by decide)⟩

/-! ## C10: the end-of-stream test is falsiness, not the sentinel -/

/-- C10: the `run` loop's end-of-stream test is JavaScript falsiness
(`if (!r) break`), not a dedicated sentinel check: when the job at position
`s` resolves to any falsy value — even one that is not the `undefined`
sentinel, such as `0`, `false` or `""` — the runner stops awaiting further
jobs, stops invoking the producer, and returns normally. -/
theorem run_stops_on_falsy (prod : Nat → Except String JSVal)
    (done : Nat → Nat) (mx s fuel : Nat) (v : JSVal) (hmax : 0 < mx)
    (hpre : ∀ k, k < s → okTruthy (prod k) = true)
    (hv : prod s = .ok v) (hfalsy : v.falsy = true) (hnu : v ≠ JSVal.jsUndefined)
    (hf : s < fuel) :
    (Queue.run ⟨prod, done, mx⟩ fuel).err = none ∧
    (Queue.run ⟨prod, done, mx⟩ fuel).fuelOut = false ∧
    (Queue.run ⟨prod, done, mx⟩ fuel).state.awaited = List.range (s + 1) ∧
    (Queue.run ⟨prod, done, mx⟩ fuel).state.produced = s + mx ∧
    v ≠ JSVal.jsUndefined := by
  have hstop : okTruthy (prod s) = false := by simp [okTruthy, hv, hfalsy]
  obtain ⟨h1, h2, h3, h4⟩ :=
    run_stops_at_first_non_truthy prod done mx s fuel hmax hpre hstop hf
  refine ⟨?_, h1, h2, h3, hnu⟩
  rw [h4, hv]

/-- Witness for C10: `prodFalsy` yields the empty string (falsy, not the
sentinel) at position 1, which silently terminates the run early. -/
theorem run_stops_on_falsy_witness :
    (Queue.run ⟨prodFalsy, doneW, 2⟩ 5).err = none ∧
    (Queue.run ⟨prodFalsy, doneW, 2⟩ 5).fuelOut = false ∧
    (Queue.run ⟨prodFalsy, doneW, 2⟩ 5).state.awaited = List.range (1 + 1) ∧
    (Queue.run ⟨prodFalsy, doneW, 2⟩ 5).state.produced = 1 + 2 ∧
    JSVal.jsStr "" ≠ JSVal.jsUndefined :=
  run_stops_on_falsy prodFalsy doneW 2 1 5 (.jsStr "") (by decide)
    (fun k hk => by
      have hk0 : k = 0 := by omega
      subst hk0
      rfl)
    rfl rfl (by decide) (by decide)

end FinOcrCli
